import Mathlib

/-!
Shallow embedding of the HydroBuddy fertilizer-installer's DBF codec
(`add-fertilizers.py`) and of the CSV variant (`docs/add-fertilizers.py`).

Files are modelled as lists of byte values (`List Nat`, each element < 256).
Python's sequential `f.read(n)` is modelled as `take n` on the remaining
bytes; a short read near end of file returns fewer bytes, exactly as in
CPython.  Python exceptions (struct.error, IndexError, ValueError,
UnicodeDecodeError) are modelled with `Except Unit`.

Python numbers are modelled as exact rationals (`Rat`): every numeric claim
settled below concerns the shape of the rendered text (width, padding,
truncation side, space-fill), which does not depend on IEEE-754 rounding,
and all concrete inputs used are exactly representable.  Unicode case
mapping and `str.isspace` are modelled on the ASCII range, which is all the
decoded `ascii` strings of this program can contain.
-/

namespace HydroDBF

/-- Values a field can receive from the fertilizer dictionaries:
Python `None`, `str`, `int`, and `float` (the last as an exact rational). -/
inductive PyVal where
  | none
  | str (s : String)
  | int (n : Int)
  | rat (q : Rat)
deriving DecidableEq, Repr

/-- Python truthiness of the values above (`if value:`). -/
def pyTruthy : PyVal → Bool
  | .none => false
  | .str s => s ≠ ""
  | .int n => n ≠ 0
  | .rat q => q ≠ 0

/-- Bytes Python's `str.strip()` removes, restricted to the ASCII range
(0x09–0x0D, 0x1C–0x1F, 0x20). -/
def pyIsSpaceB (b : Nat) : Bool :=
  (9 ≤ b && b ≤ 13) || (28 ≤ b && b ≤ 31) || b = 32

/-- `str.strip()` on a byte-level string: drop whitespace from both ends. -/
def stripWsB (l : List Nat) : List Nat :=
  ((l.dropWhile pyIsSpaceB).reverse.dropWhile pyIsSpaceB).reverse

/-- `.strip(chr 0)` on a byte string (used on field-descriptor names). -/
def stripNulls (l : List Nat) : List Nat :=
  ((l.dropWhile (· = 0)).reverse.dropWhile (· = 0)).reverse

/-- ASCII lower-casing of one character (`str.lower`, ASCII fragment). -/
def lowerChar (c : Char) : Char :=
  if 65 ≤ c.toNat && c.toNat ≤ 90 then Char.ofNat (c.toNat + 32) else c

/-- `str.lower()` (ASCII fragment). -/
def pyLower (s : String) : String := String.mk (s.data.map lowerChar)

/-- Decimal digit characters of `n`, as ASCII bytes; `fuel`-bounded
division loop (the fuel `n` always suffices since `n / 10 < n`). -/
def natDigitsGo : Nat → Nat → List Nat
  | 0, _ => []
  | fuel + 1, n => if n = 0 then [] else natDigitsGo fuel (n / 10) ++ [48 + n % 10]

/-- Decimal representation of a natural number as ASCII bytes. -/
def natDigitsB (n : Nat) : List Nat := if n = 0 then [48] else natDigitsGo n n

/-- Decimal representation of an integer as ASCII bytes (`"%d"`). -/
def renderIntB (i : Int) : List Nat :=
  if i < 0 then 45 :: natDigitsB i.natAbs else natDigitsB i.toNat

/-- Python `int(...)` on a number: truncation toward zero. -/
def pyTrunc (q : Rat) : Int :=
  if q.num < 0 then -(((q.num.natAbs / q.den : Nat) : Int)) else ((q.num.natAbs / q.den : Nat) : Int)

/-- Left-pad a digit string with ASCII zeros to width `d`. -/
def padZeros (d : Nat) (l : List Nat) : List Nat := List.replicate (d - l.length) 48 ++ l

/-- Left-pad with spaces to width `w` (numeric right-justification of the
format mini-language, and also `bytes.rjust`). -/
def padSpacesLeft (w : Nat) (l : List Nat) : List Nat := List.replicate (w - l.length) 32 ++ l

/-- Fixed-point rendering of a rational with exactly `d` fractional digits
(`"%.df"`, never scientific notation); rounding is round-half-up on the
exact value, which agrees with CPython on every exactly representable
input used below. -/
def renderFixed (q : Rat) (d : Nat) : List Nat :=
  let scaled := (q.num.natAbs * 10 ^ d * 2 + q.den) / (2 * q.den)
  (if q.num < 0 then [45] else []) ++
    natDigitsB (scaled / 10 ^ d) ++ [46] ++ padZeros d (natDigitsB (scaled % 10 ^ d))

/-- Digits of a character list read as a natural number. -/
def digitsToNat (l : List Char) : Nat :=
  l.foldl (fun acc c => acc * 10 + (c.toNat - 48)) 0

/-- Decimal digit test on characters. -/
def isDigitC (c : Char) : Bool := 48 ≤ c.toNat && c.toNat ≤ 57

/-- Whitespace test on characters (ASCII fragment of `str.isspace`). -/
def isSpaceC (c : Char) : Bool := pyIsSpaceB c.toNat

/-- Model of Python `float(s)` on a string: optional surrounding
whitespace, optional sign, digits with at most one decimal point
(exponent forms, `inf` and `nan` are outside the inputs this program
feeds it and are modelled as failures). `Option.none` models `ValueError`. -/
def parseFloat (s : String) : Option Rat :=
  let cs := ((s.data.dropWhile isSpaceC).reverse.dropWhile isSpaceC).reverse
  let signAndRest : Int × List Char :=
    match cs with
    | '-' :: t => (-1, t)
    | '+' :: t => (1, t)
    | _ => (1, cs)
  let ip := signAndRest.2.takeWhile isDigitC
  let rest := signAndRest.2.dropWhile isDigitC
  match rest with
  | [] =>
      if ip = [] then Option.none
      else some (signAndRest.1 * (digitsToNat ip : Rat))
  | '.' :: rest2 =>
      let fp := rest2.takeWhile isDigitC
      if rest2.dropWhile isDigitC ≠ [] then Option.none
      else if ip = [] && fp = [] then Option.none
      else some (signAndRest.1 *
        ((digitsToNat ip : Rat) + (digitsToNat fp : Rat) / (10 ^ fp.length : Nat)))
  | _ => Option.none

/-- Model of Python `float(value)`: `Option.none` models the exception
(`TypeError` on `None`, `ValueError` on a non-numeric string). -/
def toNum : PyVal → Option Rat
  | .none => Option.none
  | .str s => parseFloat s
  | .int n => some (n : Rat)
  | .rat q => some q

/-- Python `str(value)`.  The rendering of a `float` is abstracted (it is
never fed into a name-bearing field by this program). -/
def pyStr : PyVal → String
  | .none => "None"
  | .str s => s
  | .int n => toString n
  | .rat q => toString q

/-- A run of `n` ASCII space bytes. -/
def spaces (n : Nat) : List Nat := List.replicate n 32

/-- Body of the `try:` block of `DBFWriter.format_value` for a Numeric
field: `float(value)` (may raise, modelled as `.error ()`), format with
width `flen` and `fdec` decimals, `encode('ascii')[:flen].rjust(flen)`. -/
def formatNumericTry (v : PyVal) (flen fdec : Nat) : Except Unit (List Nat) :=
  match toNum v with
  | Option.none => .error ()
  | some q =>
      let text :=
        if 0 < fdec then padSpacesLeft flen (renderFixed q fdec)
        else padSpacesLeft flen (renderIntB (pyTrunc q))
      .ok (padSpacesLeft flen (text.take flen))

/-- `DBFWriter.format_value(value, field_type, field_length, field_decimal)`.
Type tags are the raw descriptor bytes: 78 `N`, 67 `C`, 76 `L`.  The bare
`except:` of the source is the `.error` arm of the match. -/
def format_value (v : PyVal) (ftype flen fdec : Nat) : List Nat :=
  if ftype = 78 then
    if v = PyVal.none ∨ v = PyVal.str "" then spaces flen
    else
      match formatNumericTry v flen fdec with
      | .ok bs => bs
      | .error _ => spaces flen
  else if ftype = 67 then
    let s := match v with | PyVal.none => "" | w => pyStr w
    let t := ((s.data.map Char.toNat).filter (· < 128)).take flen
    t ++ List.replicate (flen - t.length) 32
  else if ftype = 76 then
    (if pyTruthy v then [84] else [70])
  else spaces flen

/-! Table model: header, descriptors, records -/

/-- The `self.header` dictionary built by `DBFWriter.read_dbf`. -/
structure DbfHeader where
  version : Nat
  year : Nat
  month : Nat
  day : Nat
  num_records : Nat
  header_length : Nat
  record_length : Nat
deriving DecidableEq, Repr

/-- One entry of `self.field_descriptors`: name, raw type byte, length,
decimal count. -/
structure FieldDesc where
  name : String
  ftype : Nat
  length : Nat
  decimal : Nat
deriving DecidableEq, Repr

/-- The in-memory state of a `DBFWriter` after `read_dbf`. -/
structure Table where
  header : DbfHeader
  fields : List FieldDesc
  records : List (List Nat)
deriving DecidableEq, Repr

/-- Byte at index `i` of a byte string (0 when out of range; every use is
guarded by a length check mirroring the Python index/`struct` errors). -/
def byteAt (l : List Nat) (i : Nat) : Nat := l.getD i 0

/-- `struct.unpack(chr 60 ++ chr 72, ...)` little-endian u16 at offset `i`. -/
def unpackU16at (l : List Nat) (i : Nat) : Nat := byteAt l i + 256 * byteAt l (i + 1)

/-- Little-endian u32 at offset `i`. -/
def unpackU32at (l : List Nat) (i : Nat) : Nat :=
  byteAt l i + 256 * byteAt l (i + 1) + 65536 * byteAt l (i + 2) +
    16777216 * byteAt l (i + 3)

/-- `struct.pack` of a u16; `struct.error` when out of range. -/
def packU16 (n : Nat) : Except Unit (List Nat) :=
  if n < 65536 then .ok [n % 256, n / 256 % 256] else .error ()

/-- `struct.pack` of a u32; `struct.error` when out of range. -/
def packU32 (n : Nat) : Except Unit (List Nat) :=
  if n < 4294967296 then
    .ok [n % 256, n / 256 % 256, n / 65536 % 256, n / 16777216 % 256]
  else .error ()

/-- Storing an int into one cell of a `bytearray`: `ValueError` unless
`0 ≤ v < 256`. -/
def toByte (v : Int) : Except Unit Nat :=
  if 0 ≤ v ∧ v < 256 then .ok v.toNat else .error ()

/-- Checked `data[i] = v` on a `bytearray` (`IndexError` when `i` is out of
range; the value is assumed already byte-checked). -/
def setByteAt (l : List Nat) (i : Nat) (v : Nat) : Except Unit (List Nat) :=
  if i < l.length then .ok (l.set i v) else .error ()

/-- Python `buf[start:stop] = repl` on a `bytearray`: the clamped slice is
removed and `repl` spliced in (the buffer grows or shrinks when the lengths
differ). -/
def sliceAssign (buf : List Nat) (start stop : Nat) (repl : List Nat) : List Nat :=
  buf.take (min start buf.length) ++ repl ++
    buf.drop (min (max stop (min start buf.length)) buf.length)

/-- Parse one 32-byte field-descriptor block: bytes 0–10 name (strict
ASCII decode, then `.strip(chr 0)`), byte 11 type, byte 16 length, byte 17
decimal count.  `.error ()` models the `UnicodeDecodeError` / `IndexError`
a short or non-ASCII block raises. -/
def parseDesc (block : List Nat) : Except Unit FieldDesc :=
  if (block.take 11).all (· < 128) then
    match block.get? 11, block.get? 16, block.get? 17 with
    | some tb, some lb, some db =>
        .ok ⟨String.mk ((stripNulls (block.take 11)).map Char.ofNat), tb, lb, db⟩
    | _, _, _ => .error ()
  else .error ()

/-- The descriptor loop of `read_dbf`: read 32-byte blocks until one whose
first byte is 0x0D; note the terminator consumes a full 32-byte read.
Fuel-bounded recursion; each step consumes at least one byte, so the
top-level fuel `rem.length + 1` never runs out on a non-empty rest. -/
def parseDescsF : Nat → List Nat → Except Unit (List FieldDesc × List Nat)
  | 0, _ => .error ()
  | fuel + 1, rem =>
      match rem.take 32 with
      | [] => .error ()
      | b0 :: rest =>
          if b0 = 13 then .ok ([], rem.drop 32)
          else
            match parseDesc (b0 :: rest) with
            | .error e => .error e
            | .ok d =>
                match parseDescsF fuel (rem.drop 32) with
                | .error e => .error e
                | .ok (ds, r) => .ok (d :: ds, r)

/-- Descriptor loop at adequate fuel. -/
def parseDescs (rem : List Nat) : Except Unit (List FieldDesc × List Nat) :=
  parseDescsF (rem.length + 1) rem

/-- The record loop of `read_dbf`: `num_records` sequential reads of
`record_length` bytes each.  A read past end of file silently returns a
short (possibly empty) byte string — there is no truncation check. -/
def readRecords : Nat → Nat → List Nat → List (List Nat) × List Nat
  | 0, _, rem => ([], rem)
  | n + 1, rl, rem =>
      let r := rem.take rl
      let p := readRecords n rl (rem.drop rl)
      (r :: p.1, p.2)

/-- The `self.header` dictionary parsed from the 32-byte header read. -/
def parseHeader (hdr : List Nat) : DbfHeader :=
  ⟨byteAt hdr 0, byteAt hdr 1, byteAt hdr 2, byteAt hdr 3,
   unpackU32at hdr 4, unpackU16at hdr 8, unpackU16at hdr 10⟩

/-- `DBFWriter.read_dbf` on the full file contents.  The header slice
needs 12 bytes for the `struct.unpack` calls; descriptors are parsed until
the 0x0D block; records are then read without any length validation. -/
def readDbf (data : List Nat) : Except Unit Table :=
  if 12 ≤ (data.take 32).length then
    match parseDescs (data.drop 32) with
    | .error e => .error e
    | .ok (fs, rest) =>
        .ok ⟨parseHeader (data.take 32), fs,
             (readRecords (parseHeader (data.take 32)).num_records
               (parseHeader (data.take 32)).record_length rest).1⟩
  else .error ()

/-! Duplicate detection and record encoding -/

/-- `DBFWriter.record_exists(name)`: linear scan, skipping records whose
first byte slice equals the tombstone 0x2A; the name field is bytes 1..81,
ASCII-decoded ignoring non-ASCII bytes, stripped, compared lower-cased. -/
def decodeName (r : List Nat) : String :=
  String.mk ((stripWsB (((r.drop 1).take 80).filter (· < 128))).map Char.ofNat)

/-- The duplicate check of `DBFWriter.record_exists`. -/
def record_exists (records : List (List Nat)) (name : String) : Bool :=
  records.any fun r =>
    if r.take 1 = [42] then false
    else pyLower (decodeName r) == pyLower name

/-- A fertilizer dictionary: association list from field name to value;
`dict.get(k, None)` is `assocGet`. -/
def Cand := List (String × PyVal)

/-- `fert.get(name, None)`. -/
def assocGet (c : Cand) (k : String) : PyVal :=
  ((c.find? fun p => p.1 == k).map Prod.snd).getD PyVal.none

/-- One iteration of the field loop in `DBFWriter.add_record`: slice-assign
the formatted value at the running offset, then advance the offset by the
descriptor length.  A slice assignment whose payload length differs from
the slice width changes the buffer's length, exactly as in Python. -/
def recStep (c : Cand) (acc : List Nat × Nat) (f : FieldDesc) : List Nat × Nat :=
  (sliceAssign acc.1 acc.2 (acc.2 + f.length)
    (format_value (assocGet c f.name) f.ftype f.length f.decimal),
   acc.2 + f.length)

/-- Total width of a descriptor list. -/
def widthSum (fields : List FieldDesc) : Nat := (fields.map FieldDesc.length).sum

/-- The record built by `DBFWriter.add_record`: a zero-filled `bytearray`
of `record_length` bytes (index 0 set to 0x20 — `IndexError` if the length
is 0), then each field's formatted bytes slice-assigned at its cumulative
offset in descriptor order. -/
def encodeRecord (rl : Nat) (fields : List FieldDesc) (c : Cand) : Except Unit (List Nat) :=
  if rl = 0 then .error ()
  else .ok (fields.foldl (recStep c) ((List.replicate rl 0).set 0 32, 1)).1

/-- `DBFWriter.add_record`: append the encoded record and increment the
in-memory record count. -/
def addRecord (t : Table) (c : Cand) : Except Unit Table :=
  match encodeRecord t.header.record_length t.fields c with
  | .error e => .error e
  | .ok r =>
      .ok ⟨{ t.header with num_records := t.header.num_records + 1 },
           t.fields, t.records ++ [r]⟩

/-! Commit (`write_dbf`) -/

/-- Header bytes written by `DBFWriter.write_dbf`: a fresh zeroed 32-byte
buffer; version byte, date bytes (`today.year - 1900` — a `bytearray` cell
store, which raises for values outside 0..255), packed counts and lengths.
Bytes 12..31 stay zero: the original file's reserved bytes are not copied. -/
def encodeHeaderBytes (h : DbfHeader) (ty tm td : Nat) : Except Unit (List Nat) :=
  match toByte (h.version : Int), toByte ((ty : Int) - 1900), toByte (tm : Int),
        toByte (td : Int), packU32 h.num_records, packU16 h.header_length,
        packU16 h.record_length with
  | .ok vb, .ok yb, .ok mb, .ok db, .ok nr, .ok hl2, .ok rl2 =>
      .ok ([vb, yb, mb, db] ++ nr ++ hl2 ++ rl2 ++ List.replicate 20 0)
  | _, _, _, _, _, _, _ => .error ()

/-- The descriptor-copy loop of `write_dbf`: re-read the original file
from offset 32 in 32-byte blocks; a block whose first byte is 0x0D makes
the writer emit a single 0x0D byte and stop, otherwise the block is copied
whole.  (Note the asymmetry with `parseDescsF`, which consumes a full
32-byte read at the terminator.) -/
def copyDescF : Nat → List Nat → Except Unit (List Nat)
  | 0, _ => .error ()
  | fuel + 1, rem =>
      match rem.take 32 with
      | [] => .error ()
      | b0 :: rest =>
          if b0 = 13 then .ok [13]
          else
            match copyDescF fuel (rem.drop 32) with
            | .error e => .error e
            | .ok bs => .ok ((b0 :: rest) ++ bs)

/-- Descriptor-copy loop at adequate fuel. -/
def copyDescBlocks (rem : List Nat) : Except Unit (List Nat) :=
  copyDescF (rem.length + 1) rem

/-- `DBFWriter.write_dbf`, as a function of the original file bytes (the
backup the writer re-reads) and the in-memory table: encoded header,
copied descriptor block, every record in order, and the 0x1A trailer. -/
def writeDbf (origData : List Nat) (t : Table) (ty tm td : Nat) : Except Unit (List Nat) :=
  match encodeHeaderBytes t.header ty tm td with
  | .error e => .error e
  | .ok hdr =>
      match copyDescBlocks (origData.drop 32) with
      | .error e => .error e
      | .ok descBytes => .ok (hdr ++ descBytes ++ t.records.flatten ++ [26])

/-! Update orchestrator (`add_fertilizers_to_db`) -/

/-- The candidate loop: skip when `record_exists(fert["Name"])`, otherwise
`add_record` and count.  `fert["Name"]` must be a string (`.lower()` on
anything else raises). -/
def applyBatch : Table → Nat → List Cand → Except Unit (Table × Nat)
  | t, n, [] => .ok (t, n)
  | t, n, c :: rest =>
      match assocGet c "Name" with
      | PyVal.str s =>
          if record_exists t.records s then applyBatch t n rest
          else
            match addRecord t c with
            | .error e => .error e
            | .ok t2 => applyBatch t2 (n + 1) rest
      | _ => .error ()

/-- Outcome of one invocation: the rewritten file when a write happened
(`Option.none` means the file was left untouched and no backup was made),
the number of records added, and the number of `write_dbf` calls. -/
structure UpdateResult where
  written : Option (List Nat)
  added : Nat
  commits : Nat
deriving DecidableEq, Repr

/-- `add_fertilizers_to_db`, generalized over the candidate batch: load,
apply the batch, and call `write_dbf` exactly when at least one record was
added. -/
def runUpdate (fileData : List Nat) (batch : List Cand) (ty tm td : Nat) :
    Except Unit UpdateResult :=
  match readDbf fileData with
  | .error e => .error e
  | .ok t =>
      match applyBatch t 0 batch with
      | .error e => .error e
      | .ok (t2, added) =>
          if 0 < added then
            match writeDbf fileData t2 ty tm td with
            | .error e => .error e
            | .ok out => .ok ⟨some out, added, 1⟩
          else .ok ⟨Option.none, added, 0⟩

/-! The CSV variant's commit (`docs/add-fertilizers.py`, lines 258–269) -/

/-- Header update of the docs variant: the whole original buffer is edited
in place — `data[4:8] = pack(num)`, date byte stores (which raise outside
0..255), and the 0x1A trailer appended.  All other bytes round-trip. -/
def docsCommit (data : List Nat) (numRecords ty tm td : Nat) : Except Unit (List Nat) :=
  match packU32 numRecords with
  | .error e => .error e
  | .ok nr =>
      let d1 := sliceAssign data 4 8 nr
      match toByte ((ty : Int) - 1900) with
      | .error e => .error e
      | .ok yb =>
          match setByteAt d1 1 yb with
          | .error e => .error e
          | .ok d2 =>
              match toByte (tm : Int) with
              | .error e => .error e
              | .ok mb =>
                  match setByteAt d2 2 mb with
                  | .error e => .error e
                  | .ok d3 =>
                      match toByte (td : Int) with
                      | .error e => .error e
                      | .ok db =>
                          match setByteAt d3 3 db with
                          | .error e => .error e
                          | .ok d4 => .ok (d4 ++ [26])

/-! The CSV variant's record builder (`docs/add-fertilizers.py`,
`format_string_field` / `format_numeric_field` / `create_fertilizer_record`) -/

/-- `format_string_field(value, length)`: `value[:length].ljust(length)`
then `encode('ascii', errors='replace')` — each non-ASCII character
becomes one `?` byte, so the result is always exactly `length` bytes. -/
def format_string_field (s : String) (len : Nat) : List Nat :=
  (s.data.take len ++ List.replicate (len - (s.data.take len).length) ' ').map
    (fun c => if c.toNat < 128 then c.toNat else 63)

/-- `format_numeric_field(value)`: the 8-decimal rendering padded to a
minimum width of 18 and encoded; there is NO truncation, so a value whose
rendering is wider than 18 characters yields more than 18 bytes. -/
def format_numeric_field (q : Rat) : List Nat :=
  padSpacesLeft 18 (renderFixed q 8)

/-- Arguments of `create_fertilizer_record` (numbers as exact rationals). -/
structure FertInput where
  name : String
  formula : String
  source : String
  purity : Rat
  nutrients : List (String × Rat)
  isliquid : Rat
  density : Rat
  cost : Rat
  conctype : String

/-- `nutrients.get(key, 0)`. -/
def ratGet (l : List (String × Rat)) (k : String) : Rat :=
  ((l.find? fun p => p.1 == k).map Prod.snd).getD 0

/-- The nutrient keys, in the order `create_fertilizer_record` writes them. -/
def nutrientKeys : List String :=
  ["N_NO3", "N_NH4", "P", "K", "Mg", "Ca", "S", "B", "Fe", "Zn", "Mn", "Cu",
   "Mo", "Na", "Si", "Cl"]

/-- All twenty numeric values `create_fertilizer_record` formats. -/
def numericValues (fi : FertInput) : List Rat :=
  fi.purity :: ((nutrientKeys.map (ratGet fi.nutrients)) ++
    [fi.isliquid, fi.density, fi.cost])

/-- The field writes of `create_fertilizer_record`, in source order: each
entry is the nominal slice width the running offset advances by, paired
with the payload bytes (320 string bytes, 20 numeric fields of nominal
width 18, and the 80-byte remainder for ConcType). -/
def docsFields (fi : FertInput) : List (Nat × List Nat) :=
  [(80, format_string_field fi.name 80),
   (80, format_string_field fi.formula 80),
   (80, format_string_field fi.source 80),
   (18, format_numeric_field fi.purity)] ++
  (nutrientKeys.map fun k => (18, format_numeric_field (ratGet fi.nutrients k))) ++
  [(18, format_numeric_field fi.isliquid),
   (18, format_numeric_field fi.density),
   (18, format_numeric_field fi.cost),
   (80, format_string_field fi.conctype 80)]

/-- `create_fertilizer_record`: a 681-byte `bytearray`, byte 0 set to
0x20, then each field slice-assigned at its fixed running offset.  As in
`add_record`, a payload whose length differs from its nominal width grows
or shrinks the buffer. -/
def create_fertilizer_record (fi : FertInput) : List Nat :=
  ((docsFields fi).foldl
    (fun (acc : List Nat × Nat) w =>
      (sliceAssign acc.1 acc.2 (acc.2 + w.1) w.2, acc.2 + w.1))
    ((List.replicate 681 0).set 0 32, 1)).1

/-! Concrete test fixtures

A minimal table with one Character field `Name` of width 4, record length
5, and one active record ` ABC ` — plus the files produced from it by the
functions above. -/

/-- Descriptor block: name `Name`, type `C` (67), length 4, decimals 0. -/
def exDescBlock : List Nat :=
  [78, 97, 109, 101, 0, 0, 0, 0, 0, 0, 0, 67, 0, 0, 0, 0, 4, 0] ++ List.replicate 14 0

/-- Original file: 32-byte header (1 record, header length 97, record
length 5), descriptor block, a full 32-byte terminator block, one record
` ABC `, and the 0x1A trailer. -/
def exF0 : List Nat :=
  [3, 124, 1, 1, 1, 0, 0, 0, 97, 0, 5, 0] ++ List.replicate 20 0 ++
    exDescBlock ++ (13 :: List.replicate 31 0) ++ [32, 65, 66, 67, 32] ++ [26]

/-- The same file with reserved header byte 12 set to 7. -/
def exF0c : List Nat :=
  [3, 124, 1, 1, 1, 0, 0, 0, 97, 0, 5, 0, 7] ++ List.replicate 19 0 ++
    exDescBlock ++ (13 :: List.replicate 31 0) ++ [32, 65, 66, 67, 32] ++ [26]

/-- A candidate whose name is not yet in the table. -/
def exCand : Cand := [("Name", PyVal.str "NEWB")]

/-- Singleton batch of the new candidate. -/
def exBatch : List Cand := [exCand]

/-- Singleton batch whose candidate name `ABC` is already present. -/
def exBatchDup : List Cand := [[("Name", PyVal.str "ABC")]]

/-- The table `read_dbf` builds from `exF0`. -/
def exT : Table :=
  ⟨⟨3, 124, 1, 1, 1, 97, 5⟩, [⟨"Name", 67, 4, 0⟩], [[32, 65, 66, 67, 32]]⟩

/-- The table after adding the `NEWB` record. -/
def exT2 : Table :=
  ⟨⟨3, 124, 1, 1, 2, 97, 5⟩, [⟨"Name", 67, 4, 0⟩],
   [[32, 65, 66, 67, 32], [32, 78, 69, 87, 66]]⟩

/-- The file the first run writes: note the single-byte 0x0D terminator. -/
def exF1 : List Nat :=
  [3, 124, 1, 1, 2, 0, 0, 0, 97, 0, 5, 0] ++ List.replicate 20 0 ++
    exDescBlock ++ [13] ++ [32, 65, 66, 67, 32] ++ [32, 78, 69, 87, 66] ++ [26]

/-- The file the second run writes after re-adding `NEWB`. -/
def exF2 : List Nat :=
  [3, 124, 1, 1, 3, 0, 0, 0, 97, 0, 5, 0] ++ List.replicate 20 0 ++
    exDescBlock ++ [13] ++ [32, 78, 69, 87, 66] ++ [26]

/-- A truncated file: the header declares 2 records of 5 bytes but the
file ends right after the descriptor terminator block. -/
def exShort : List Nat :=
  [3, 124, 1, 1, 2, 0, 0, 0, 97, 0, 5, 0] ++ List.replicate 20 0 ++
    exDescBlock ++ (13 :: List.replicate 31 0)

/-- The table `read_dbf` builds from `exShort`: two empty records. -/
def exShortT : Table :=
  ⟨⟨3, 124, 1, 1, 2, 97, 5⟩, [⟨"Name", 67, 4, 0⟩], [[], []]⟩

/-- A header fixture for the header-codec theorems. -/
def exHdr : DbfHeader := ⟨3, 124, 1, 1, 1, 97, 5⟩

/-- A fertilizer whose purity renders as 19 characters
(`1000000000.00000000`), overflowing the nominal 18-byte numeric width. -/
def exFertWide : FertInput :=
  ⟨"", "", "", ((1000000000 : Int) : Rat), [], 0, 0, 0, ""⟩

/-- A fertilizer whose every numeric rendering fits its 18-byte field. -/
def exFertCa : FertInput :=
  ⟨"Calcium Sulfate", "CaSO4", "Generic", ((1 : Int) : Rat),
   [("Ca", ((22 : Int) : Rat)), ("S", ((17 : Int) : Rat))], 0, 0, 0, ""⟩

/-- The 32 header bytes `write_dbf` produces from `exHdr` on 2024-01-01. -/
def exBs : List Nat :=
  [3, 124, 1, 1, 1, 0, 0, 0, 97, 0, 5, 0] ++ List.replicate 20 0

/-- Output of the docs variant's commit on `exF0` with count 2. -/
def exDocsOut : List Nat :=
  [3, 124, 1, 1, 2, 0, 0, 0, 97, 0, 5, 0] ++ List.replicate 20 0 ++
    exDescBlock ++ (13 :: List.replicate 31 0) ++ [32, 65, 66, 67, 32] ++ [26, 26]

/-! Helper lemmas -/

lemma take_one_eq_cons (r : List Nat) : r.take 1 = [42] ↔ r.head? = some 42 := by
  cases r <;> simp

lemma byteAt_take (l : List Nat) {i n : Nat} (h : i < n) :
    byteAt (l.take n) i = byteAt l i := by
  simp [byteAt, List.getD_eq_getElem?_getD, List.getElem?_take, h]

lemma unpackU16at_take (l : List Nat) {i n : Nat} (h : i + 1 < n) :
    unpackU16at (l.take n) i = unpackU16at l i := by
  unfold unpackU16at
  rw [byteAt_take l (by omega), byteAt_take l h]

lemma unpackU32at_take (l : List Nat) {i n : Nat} (h : i + 3 < n) :
    unpackU32at (l.take n) i = unpackU32at l i := by
  unfold unpackU32at
  rw [byteAt_take l (by omega), byteAt_take l (by omega), byteAt_take l (by omega),
    byteAt_take l h]

lemma unpack_pack16 {n : Nat} (h : n < 65536) :
    n % 256 + 256 * (n / 256 % 256) = n := by omega

lemma unpack_pack32 {n : Nat} (h : n < 4294967296) :
    n % 256 + 256 * (n / 256 % 256) + 65536 * (n / 65536 % 256) +
      16777216 * (n / 16777216 % 256) = n := by omega

/-! C2 — duplicate detection -/

/-- C2.  `record_exists` returns true exactly when some record whose
status byte is not the tombstone 0x2A has a name field (bytes 1..81,
ASCII-decoded ignoring non-ASCII, whitespace-trimmed) equal to the query
name case-insensitively; in particular a tombstoned record never triggers
it. -/
theorem c2_record_exists_iff (records : List (List Nat)) (name : String) :
    record_exists records name = true ↔
      ∃ r ∈ records, r.head? ≠ some 42 ∧ pyLower (decodeName r) = pyLower name := by
  unfold record_exists
  rw [List.any_eq_true]
  constructor
  · rintro ⟨r, hr, hc⟩
    by_cases h : r.take 1 = [42]
    · rw [if_pos h] at hc
      exact absurd hc (by simp)
    · rw [if_neg h] at hc
      exact ⟨r, hr, fun hh => h ((take_one_eq_cons r).2 hh), by simpa using hc⟩
  · rintro ⟨r, hr, h1, h2⟩
    refine ⟨r, hr, ?_⟩
    rw [if_neg (fun hh => h1 ((take_one_eq_cons r).1 hh))]
    simpa using h2

/-! C4 — idempotence of a repeated batch (demonstrated failing) -/

/-- C4.  Running the batch twice is NOT idempotent: the writer emits a
single 0x0D terminator byte, but the reader's descriptor loop consumes a
full 32-byte read at the terminator, so on the rewritten file every record
is parsed 31 bytes out of alignment (here: as empty strings).  The
duplicate check therefore misses the name that was just added, and the
second run adds the candidate again and rewrites the file (added = 1, one
commit), instead of adding zero records and performing no write. -/
theorem c4_idempotence_bug :
    runUpdate exF0 exBatch 2024 1 1 = .ok ⟨some exF1, 1, 1⟩ ∧
      runUpdate exF1 exBatch 2024 1 1 = .ok ⟨some exF2, 1, 1⟩ ∧
      readDbf exF1 = .ok ⟨⟨3, 124, 1, 1, 2, 97, 5⟩, [⟨"Name", 67, 4, 0⟩], [[], []]⟩ :=
  ⟨rfl, rfl, rfl⟩

/-! C8 — missing truncation check on load -/

/-- C8 counterexample.  `read_dbf` does not fail on a truncated file: this
file declares 2 records of 5 bytes but ends right after the descriptor
terminator; the load succeeds and two empty records enter the in-memory
sequence. -/
theorem c8_counterexample :
    readDbf exShort = .ok exShortT ∧
      exShort.length <
        exShortT.header.header_length +
          exShortT.header.num_records * exShortT.header.record_length ∧
      exShortT.records = [[], []] :=
  ⟨rfl, by decide, rfl⟩

/-! C1 — reserved header bytes (not preserved by `write_dbf`) -/

/-- C1 counterexample.  An append-only update on a file whose reserved
header byte 12 is 7 rewrites the file with byte 12 equal to 0:
`write_dbf` builds the new header in a fresh zeroed buffer and never
copies bytes 12..31 of the original. -/
theorem c1_counterexample :
    runUpdate exF0c exBatch 2024 1 1 = .ok ⟨some exF1, 1, 1⟩ ∧
      byteAt exF0c 12 = 7 ∧ byteAt exF1 12 = 0 :=
  ⟨rfl, by decide, by decide⟩

/-! C3 — header invariants across commit -/

lemma readDbf_header {file : List Nat} {t : Table} (h : readDbf file = .ok t) :
    t.header.num_records = unpackU32at file 4 ∧
      t.header.header_length = unpackU16at file 8 ∧
      t.header.record_length = unpackU16at file 10 := by
  unfold readDbf at h
  split at h
  · split at h
    · exact absurd h (by simp)
    · injection h with h2
      subst h2
      unfold parseHeader
      refine ⟨?_, ?_, ?_⟩
      · exact unpackU32at_take file (by omega)
      · exact unpackU16at_take file (by omega)
      · exact unpackU16at_take file (by omega)
  · exact absurd h (by simp)

lemma addRecord_header {t t2 : Table} {c : Cand} (h : addRecord t c = .ok t2) :
    t2.header.num_records = t.header.num_records + 1 ∧
      t2.header.header_length = t.header.header_length ∧
      t2.header.record_length = t.header.record_length := by
  unfold addRecord at h
  split at h
  · exact absurd h (by simp)
  · injection h with h2
    subst h2
    exact ⟨rfl, rfl, rfl⟩

lemma applyBatch_header (batch : List Cand) :
    ∀ (t : Table) (n : Nat) (t2 : Table) (m : Nat),
      applyBatch t n batch = .ok (t2, m) →
      t2.header.header_length = t.header.header_length ∧
        t2.header.record_length = t.header.record_length ∧
        t2.header.num_records + n = t.header.num_records + m := by
  induction batch with
  | nil =>
      intro t n t2 m h
      injection h with h2
      injection h2 with ha hb
      subst ha; subst hb
      exact ⟨rfl, rfl, rfl⟩
  | cons c rest ih =>
      intro t n t2 m h
      unfold applyBatch at h
      split at h
      · split at h
        · exact ih t n t2 m h
        · split at h
          · exact absurd h (by simp)
          · rename_i t3 hadd
            obtain ⟨a1, a2, a3⟩ := addRecord_header hadd
            obtain ⟨b1, b2, b3⟩ := ih t3 (n + 1) t2 m h
            exact ⟨b1.trans a2, b2.trans a3, by omega⟩
      · exact absurd h (by simp)

lemma writeDbf_fields {orig : List Nat} {t : Table} {ty tm td : Nat} {out : List Nat}
    (h : writeDbf orig t ty tm td = .ok out) :
    unpackU16at out 8 = t.header.header_length ∧
      unpackU16at out 10 = t.header.record_length ∧
      unpackU32at out 4 = t.header.num_records := by
  unfold writeDbf at h
  split at h
  · exact absurd h (by simp)
  · rename_i hdr henc
    split at h
    · exact absurd h (by simp)
    · rename_i descB hdesc
      injection h with h2
      subst h2
      unfold encodeHeaderBytes at henc
      split at henc
      case h_2 => exact absurd henc (by simp)
      case h_1 vb yb mb db nr hl2 rl2 hv hy hm hd hn hh hrl =>
        unfold packU16 at hh hrl
        unfold packU32 at hn
        split at hh
        case isFalse => exact absurd hh (by simp)
        case isTrue hhlt =>
          split at hrl
          case isFalse => exact absurd hrl (by simp)
          case isTrue hrlt =>
            split at hn
            case isFalse => exact absurd hn (by simp)
            case isTrue hnlt =>
              injection hh with hh2
              injection hrl with hrl2
              injection hn with hn2
              subst hh2; subst hrl2; subst hn2
              injection henc with henc2
              subst henc2
              refine ⟨?_, ?_, ?_⟩
              · simp only [unpackU16at, byteAt, List.append_assoc, List.cons_append,
                  List.nil_append, List.getD_eq_getElem?_getD, List.getElem?_cons_zero,
                  List.getElem?_cons_succ, Option.getD_some]
                exact unpack_pack16 hhlt
              · simp only [unpackU16at, byteAt, List.append_assoc, List.cons_append,
                  List.nil_append, List.getD_eq_getElem?_getD, List.getElem?_cons_zero,
                  List.getElem?_cons_succ, Option.getD_some]
                exact unpack_pack16 hrlt
              · simp only [unpackU32at, byteAt, List.append_assoc, List.cons_append,
                  List.nil_append, List.getD_eq_getElem?_getD, List.getElem?_cons_zero,
                  List.getElem?_cons_succ, Option.getD_some]
                exact unpack_pack32 hnlt

/-- C3.  After a commit that followed `k` successful `add_record` calls,
the rewritten file's header-length and record-length fields equal the
original file's exactly, and its record-count field is the original count
plus `k`. -/
theorem c3_header_invariants (file : List Nat) (batch : List Cand) (ty tm td : Nat)
    (t t2 : Table) (k : Nat) (out : List Nat)
    (hr : readDbf file = .ok t)
    (ha : applyBatch t 0 batch = .ok (t2, k))
    (hw : writeDbf file t2 ty tm td = .ok out) :
    unpackU16at out 8 = unpackU16at file 8 ∧
      unpackU16at out 10 = unpackU16at file 10 ∧
      unpackU32at out 4 = unpackU32at file 4 + k := by
  obtain ⟨r1, r2, r3⟩ := readDbf_header hr
  obtain ⟨a1, a2, a3⟩ := applyBatch_header batch t 0 t2 k ha
  obtain ⟨w1, w2, w3⟩ := writeDbf_fields hw
  refine ⟨?_, ?_, ?_⟩
  · rw [w1, a1, r2]
  · rw [w2, a2, r3]
  · rw [w3, ← r1]; omega

/-- C3 witness at the concrete fixture: one record added to `exF0`. -/
theorem c3_header_invariants_witness :
    unpackU16at exF1 8 = unpackU16at exF0 8 ∧
      unpackU16at exF1 10 = unpackU16at exF0 10 ∧
      unpackU32at exF1 4 = unpackU32at exF0 4 + 1 :=
  c3_header_invariants exF0 exBatch 2024 1 1 exT exT2 1 exF1 rfl rfl rfl

/-! C5 — no write when nothing is new; one commit per invocation -/

lemma applyBatch_all_exist (batch : List Cand) :
    ∀ (t : Table) (n : Nat),
      (∀ c ∈ batch, ∃ s, assocGet c "Name" = PyVal.str s ∧
        record_exists t.records s = true) →
      applyBatch t n batch = .ok (t, n) := by
  induction batch with
  | nil => intro t n _; rfl
  | cons c rest ih =>
      intro t n hall
      obtain ⟨s, h1, h2⟩ := hall c (List.mem_cons_self ..)
      unfold applyBatch
      rw [h1]
      dsimp only
      rw [if_pos h2]
      exact ih t n fun d hd => hall d (List.mem_cons_of_mem _ hd)

/-- C5.  When every candidate's name is already present, the batch run
leaves the file untouched — no bytes written and no backup made (the
backup rename happens inside `write_dbf`, which is not called) — and in
every invocation `write_dbf` is called at most once. -/
theorem c5_no_write_no_backup (file : List Nat) (batch : List Cand)
    (ty tm td : Nat) (t : Table)
    (hr : readDbf file = .ok t)
    (hall : ∀ c ∈ batch, ∃ s, assocGet c "Name" = PyVal.str s ∧
      record_exists t.records s = true) :
    runUpdate file batch ty tm td = .ok ⟨Option.none, 0, 0⟩ ∧
      ∀ file2 batch2 ty2 tm2 td2 res,
        runUpdate file2 batch2 ty2 tm2 td2 = .ok res → res.commits ≤ 1 := by
  constructor
  · unfold runUpdate
    rw [hr]
    dsimp only
    rw [applyBatch_all_exist batch t 0 hall]
    simp
  · intro file2 batch2 ty2 tm2 td2 res h
    unfold runUpdate at h
    split at h
    · exact absurd h (by simp)
    · split at h
      · exact absurd h (by simp)
      · split at h
        · split at h
          · exact absurd h (by simp)
          · injection h with h2; subst h2; exact Nat.le_refl 1
        · injection h with h2; subst h2; exact Nat.zero_le 1

/-- C5 witness: a batch whose only candidate `ABC` is already present
leaves `exF0` untouched. -/
theorem c5_no_write_no_backup_witness :
    runUpdate exF0 exBatchDup 2024 1 1 = .ok ⟨Option.none, 0, 0⟩ :=
  (c5_no_write_no_backup exF0 exBatchDup 2024 1 1 exT rfl
    (by
      intro c hc
      have hc2 : c = [("Name", PyVal.str "ABC")] := by
        simpa [exBatchDup] using hc
      subst hc2
      exact ⟨"ABC", rfl, rfl⟩)).1

/-! C8 amended — load never validates the byte count -/

lemma readRecords_spec (n : Nat) :
    ∀ (rl : Nat) (rem : List Nat),
      (readRecords n rl rem).1.length = n ∧
        ∀ r ∈ (readRecords n rl rem).1, r.length ≤ rl := by
  induction n with
  | zero =>
      intro rl rem
      exact ⟨rfl, by intro r hr; simp [readRecords] at hr⟩
  | succ m ih =>
      intro rl rem
      refine ⟨?_, ?_⟩
      · simp [readRecords, (ih rl (rem.drop rl)).1]
      · intro r hr
        simp only [readRecords] at hr
        rcases List.mem_cons.1 hr with h | h
        · subst h
          simp [List.length_take]
        · exact (ih rl (rem.drop rl)).2 r h

/-- C8 amended.  `read_dbf` performs no truncation check at all: on any
file it accepts, it produces exactly the declared number of record
entries, each at most `record_length` bytes — short (even empty) records
from a truncated file silently enter the sequence instead of raising. -/
theorem c8_load_no_truncation_check (file : List Nat) (t : Table)
    (h : readDbf file = .ok t) :
    t.records.length = t.header.num_records ∧
      ∀ r ∈ t.records, r.length ≤ t.header.record_length := by
  unfold readDbf at h
  split at h
  · split at h
    · exact absurd h (by simp)
    · injection h with h2
      subst h2
      exact ⟨(readRecords_spec _ _ _).1, (readRecords_spec _ _ _).2⟩
  · exact absurd h (by simp)

/-- C8 witness: the truncated fixture loads with exactly its declared
record count. -/
theorem c8_load_no_truncation_check_witness :
    exShortT.records.length = exShortT.header.num_records :=
  (c8_load_no_truncation_check exShort exShortT rfl).1

/-! C9 — the year byte raises instead of wrapping -/

lemma toByte_nat {n : Nat} (h : n < 256) : toByte (n : Int) = .ok n := by
  unfold toByte
  rw [if_pos ⟨Int.ofNat_nonneg n, by exact_mod_cast h⟩]
  simp

lemma toByte_year {ty : Nat} (h1 : 1900 ≤ ty) (h2 : ty < 2156) :
    toByte ((ty : Int) - 1900) = .ok (ty - 1900) := by
  have h0 : (0 : Int) ≤ (ty : Int) - 1900 := by omega
  have h256 : (ty : Int) - 1900 < 256 := by omega
  have ht : ((ty : Int) - 1900).toNat = ty - 1900 := by omega
  unfold toByte
  rw [if_pos ⟨h0, h256⟩, ht]

lemma toByte_year_overflow {ty : Nat} (h : 2156 ≤ ty) :
    toByte ((ty : Int) - 1900) = .error () := by
  unfold toByte
  rw [if_neg]
  rintro ⟨-, hlt⟩
  omega

lemma packU16_ok {n : Nat} (h : n < 65536) :
    packU16 n = .ok [n % 256, n / 256 % 256] := by
  unfold packU16
  rw [if_pos h]

lemma packU32_ok {n : Nat} (h : n < 4294967296) :
    packU32 n = .ok [n % 256, n / 256 % 256, n / 65536 % 256, n / 16777216 % 256] := by
  unfold packU32
  rw [if_pos h]

/-- C9 counterexample.  Committing in calendar year 2156 does not wrap the
year byte modulo 256: the `bytearray` cell store `header[1] = year - 1900`
raises `ValueError`, so the header encode fails instead of silently
overflowing. -/
theorem c9_counterexample : encodeHeaderBytes exHdr 2156 6 1 = .error () := by
  unfold encodeHeaderBytes
  split
  case h_1 vb yb mb db nr hl2 rl2 hv hy hm hd hn hh hrl =>
    rw [toByte_year_overflow (by omega)] at hy
    exact absurd hy (by simp)
  case h_2 => rfl

/-- C9 amended.  Header encode writes `year - 1900` into byte 1 for years
1900..2155; from 2156 on the byte store raises (`.error`), it never wraps. -/
theorem c9_year_byte (h : DbfHeader) (ty tm td : Nat) :
    (2156 ≤ ty → encodeHeaderBytes h ty tm td = .error ()) ∧
      (h.version < 256 → 1900 ≤ ty → ty < 2156 → tm < 256 → td < 256 →
        h.num_records < 4294967296 → h.header_length < 65536 →
        h.record_length < 65536 →
        ∃ bs, encodeHeaderBytes h ty tm td = .ok bs ∧ byteAt bs 1 = ty - 1900) := by
  constructor
  · intro hty
    unfold encodeHeaderBytes
    split
    case h_1 vb yb mb db nr hl2 rl2 hv hy hm hd hn hh hrl =>
      rw [toByte_year_overflow hty] at hy
      exact absurd hy (by simp)
    case h_2 => rfl
  · intro hv h1900 h2156 htm htd hn hh hrl
    unfold encodeHeaderBytes
    rw [toByte_nat hv, toByte_year h1900 h2156, toByte_nat htm, toByte_nat htd,
      packU32_ok hn, packU16_ok hh, packU16_ok hrl]
    dsimp only
    refine ⟨_, rfl, ?_⟩
    simp [byteAt]

/-- C9 witness: the overflow year fails, a valid year lands in byte 1. -/
theorem c9_year_byte_witness :
    encodeHeaderBytes exHdr 2157 1 1 = Except.error () ∧ byteAt exBs 1 = 124 := by
  refine ⟨(c9_year_byte exHdr 2157 1 1).1 (by omega), ?_⟩
  obtain ⟨bs, hb1, hb2⟩ :=
    (c9_year_byte exHdr 2024 1 1).2 (by decide) (by omega) (by omega) (by omega)
      (by omega) (by decide) (by decide) (by decide)
  have hbs : bs = exBs := by
    have h2 : Except.ok (ε := Unit) bs = Except.ok exBs :=
      hb1.symm.trans (rfl : encodeHeaderBytes exHdr 2024 1 1 = .ok exBs)
    injection h2
  rw [hbs] at hb2
  simpa using hb2

/-! Value-encoding lemmas (C6, C7, C10) -/

lemma padSpacesLeft_length {w : Nat} {l : List Nat} (h : l.length ≤ w) :
    (padSpacesLeft w l).length = w := by
  simp only [padSpacesLeft, List.length_append, List.length_replicate]
  omega

lemma padSpacesLeft_of_le {w : Nat} {l : List Nat} (h : w ≤ l.length) :
    padSpacesLeft w l = l := by
  simp [padSpacesLeft, Nat.sub_eq_zero_of_le h]

lemma formatNumericTry_length {v : PyVal} {flen fdec : Nat} {bs : List Nat}
    (h : formatNumericTry v flen fdec = .ok bs) : bs.length = flen := by
  unfold formatNumericTry at h
  split at h
  · exact absurd h (by simp)
  · injection h with h2
    subst h2
    apply padSpacesLeft_length
    rw [List.length_take]
    exact Nat.min_le_left _ _

lemma format_value_length (v : PyVal) (ft flen fdec : Nat) (h : ft ≠ 76) :
    (format_value v ft flen fdec).length = flen := by
  unfold format_value
  by_cases h78 : ft = 78
  · rw [if_pos h78]
    by_cases hv : v = PyVal.none ∨ v = PyVal.str ""
    · rw [if_pos hv]
      simp [spaces]
    · rw [if_neg hv]
      split
      · rename_i bs hbs
        exact formatNumericTry_length hbs
      · simp [spaces]
  · rw [if_neg h78]
    by_cases h67 : ft = 67
    · rw [if_pos h67]
      dsimp only
      rw [List.length_append, List.length_replicate, List.length_take]
      omega
    · rw [if_neg h67, if_neg h]
      simp [spaces]

lemma format_value_logical (v : PyVal) (flen fdec : Nat) :
    (format_value v 76 flen fdec).length = 1 := by
  unfold format_value
  rw [if_neg (by omega), if_neg (by omega), if_pos rfl]
  by_cases h : pyTruthy v = true
  · rw [if_pos h]; rfl
  · rw [if_neg h]; rfl

lemma sliceAssign_length {buf repl : List Nat} {a b : Nat}
    (h1 : a ≤ b) (h2 : b ≤ buf.length) (h3 : repl.length = b - a) :
    (sliceAssign buf a b repl).length = buf.length := by
  simp only [sliceAssign, List.length_append, List.length_take, List.length_drop]
  omega

lemma sliceAssign_head {buf repl : List Nat} {a b : Nat} (h1 : 1 ≤ a)
    (hb : buf.head? = some 32) : (sliceAssign buf a b repl).head? = some 32 := by
  cases buf with
  | nil => simp at hb
  | cons x xs =>
      simp only [List.head?_cons, Option.some_inj] at hb
      subst hb
      unfold sliceAssign
      have hmin : min a (32 :: xs).length = (min a (32 :: xs).length - 1) + 1 := by
        simp only [List.length_cons]
        omega
      rw [hmin, List.take_succ_cons, List.cons_append, List.cons_append, List.head?_cons]

lemma foldl_recStep_spec (fields : List FieldDesc) (c : Cand) :
    ∀ (buf : List Nat) (off : Nat),
      buf.head? = some 32 → 1 ≤ off → off + widthSum fields ≤ buf.length →
      (∀ f ∈ fields, f.ftype = 76 → f.length = 1) →
      (fields.foldl (recStep c) (buf, off)).1.length = buf.length ∧
        (fields.foldl (recStep c) (buf, off)).1.head? = some 32 := by
  induction fields with
  | nil =>
      intro buf off hh _ _ _
      exact ⟨rfl, hh⟩
  | cons f fs ih =>
      intro buf off hh hoff hsum hL
      have hflen : (format_value (assocGet c f.name) f.ftype f.length f.decimal).length
          = f.length := by
        by_cases h76 : f.ftype = 76
        · have h1 : f.length = 1 := hL f (List.mem_cons_self ..) h76
          rw [h76, format_value_logical, h1]
        · exact format_value_length _ _ _ _ h76
      have hwid : widthSum (f :: fs) = f.length + widthSum fs := by
        simp [widthSum]
      have hlen2 : (sliceAssign buf off (off + f.length)
          (format_value (assocGet c f.name) f.ftype f.length f.decimal)).length
          = buf.length :=
        sliceAssign_length (by omega) (by omega) (by rw [hflen]; omega)
      have hh2 : (sliceAssign buf off (off + f.length)
          (format_value (assocGet c f.name) f.ftype f.length f.decimal)).head?
          = some 32 :=
        sliceAssign_head hoff hh
      rw [List.foldl_cons]
      have hrec := ih (sliceAssign buf off (off + f.length)
          (format_value (assocGet c f.name) f.ftype f.length f.decimal))
        (off + f.length) hh2 (by omega) (by rw [hlen2]; omega)
        (fun g hg => hL g (List.mem_cons_of_mem _ hg))
      exact ⟨hrec.1.trans hlen2, hrec.2⟩

lemma format_string_field_length (s : String) (len : Nat) :
    (format_string_field s len).length = len := by
  simp only [format_string_field, List.length_map, List.length_append,
    List.length_replicate, List.length_take]
  omega

lemma format_numeric_field_length {q : Rat} (h : (renderFixed q 8).length ≤ 18) :
    (format_numeric_field q).length = 18 :=
  padSpacesLeft_length h

lemma foldl_writeStep_spec (ws : List (Nat × List Nat)) :
    ∀ (buf : List Nat) (off : Nat),
      buf.head? = some 32 → 1 ≤ off →
      off + (ws.map Prod.fst).sum ≤ buf.length →
      (∀ w ∈ ws, w.2.length = w.1) →
      ((ws.foldl (fun (acc : List Nat × Nat) w =>
          (sliceAssign acc.1 acc.2 (acc.2 + w.1) w.2, acc.2 + w.1)) (buf, off)).1.length
          = buf.length ∧
        (ws.foldl (fun (acc : List Nat × Nat) w =>
          (sliceAssign acc.1 acc.2 (acc.2 + w.1) w.2, acc.2 + w.1)) (buf, off)).1.head?
          = some 32) := by
  induction ws with
  | nil =>
      intro buf off hh _ _ _
      exact ⟨rfl, hh⟩
  | cons w ws2 ih =>
      intro buf off hh hoff hsum hlens
      have hw1 : w.2.length = w.1 := hlens w (List.mem_cons_self ..)
      have hmap : ((w :: ws2).map Prod.fst).sum = w.1 + (ws2.map Prod.fst).sum := by
        simp
      rw [hmap] at hsum
      have hlen2 : (sliceAssign buf off (off + w.1) w.2).length = buf.length :=
        sliceAssign_length (by omega) (by omega) (by omega)
      have hh2 : (sliceAssign buf off (off + w.1) w.2).head? = some 32 :=
        sliceAssign_head hoff hh
      rw [List.foldl_cons]
      have hrec := ih (sliceAssign buf off (off + w.1) w.2) (off + w.1) hh2 (by omega)
        (by rw [hlen2]; omega) (fun g hg => hlens g (List.mem_cons_of_mem _ hg))
      exact ⟨hrec.1.trans hlen2, hrec.2⟩

/-! C6 — record length invariant -/

set_option maxRecDepth 100000 in
/-- C6 counterexample, both encoders.  With a Logical descriptor of
declared length 2 (as a loaded table may contain), `format_value` still
returns the single byte `T`/`F`, so the slice assignment shrinks the
buffer: `add_record` produces 3 bytes against record length 4.  And in
`create_fertilizer_record`, a purity of 10^9 renders as 19 characters
with no truncation, so the growing slice assignment leaves a 682-byte
record against the fixed length 681. -/
theorem c6_counterexample :
    (encodeRecord 4 [⟨"F", 76, 2, 0⟩] [("F", PyVal.int 1)] = .ok [32, 84, 0] ∧
      ([32, 84, 0] : List Nat).length ≠ 4) ∧
      (create_fertilizer_record exFertWide).length = 682 ∧ (682 : Nat) ≠ 681 :=
  ⟨⟨rfl, by decide⟩, by decide, by decide⟩

/-- C6 amended, both encoders.  For `add_record`: provided every Logical
descriptor has length 1 and the descriptor widths fit in
`record_length - 1` (with `record_length ≥ 1`), every record produced is
exactly `record_length` bytes with status byte 0x20.  For
`create_fertilizer_record`: provided each of its twenty numeric values
renders in at most 18 characters, the record is exactly 681 bytes with
status byte 0x20.  (The counterexample shows both provisos are needed.) -/
theorem c6_record_length_invariant (rl : Nat) (fields : List FieldDesc) (c : Cand)
    (h1 : 1 ≤ rl)
    (hL : ∀ f ∈ fields, f.ftype = 76 → f.length = 1)
    (hsum : widthSum fields + 1 ≤ rl)
    (r : List Nat) (henc : encodeRecord rl fields c = .ok r) :
    (r.length = rl ∧ r.head? = some 32) ∧
      ∀ fi : FertInput,
        (∀ q ∈ numericValues fi, (renderFixed q 8).length ≤ 18) →
        (create_fertilizer_record fi).length = 681 ∧
          (create_fertilizer_record fi).head? = some 32 := by
  constructor
  · unfold encodeRecord at henc
    rw [if_neg (by omega)] at henc
    injection henc with h2
    subst h2
    have hbuf : ((List.replicate rl 0).set 0 32).head? = some 32 := by
      cases rl with
      | zero => omega
      | succ m => simp [List.replicate_succ]
    have hblen : ((List.replicate rl 0).set 0 32).length = rl := by simp
    have hs := foldl_recStep_spec fields c ((List.replicate rl 0).set 0 32) 1 hbuf
      (Nat.le_refl 1) (by rw [hblen]; omega) hL
    exact ⟨hs.1.trans hblen, hs.2⟩
  · intro fi hfit
    have hh0 : ((List.replicate 681 0).set 0 32).head? = some 32 := rfl
    have hlen0 : ((List.replicate 681 0).set 0 32).length = 681 := by
      rw [List.length_set, List.length_replicate]
    have hfields : ∀ w ∈ docsFields fi, w.2.length = w.1 := by
      intro w hw
      simp only [docsFields, List.mem_append, List.mem_cons, List.mem_map,
        List.not_mem_nil, or_false] at hw
      rcases hw with ((rfl | rfl | rfl | rfl) | ⟨k, hk, rfl⟩) | (rfl | rfl | rfl | rfl)
      · exact format_string_field_length _ _
      · exact format_string_field_length _ _
      · exact format_string_field_length _ _
      · exact format_numeric_field_length (hfit _ (List.mem_cons_self ..))
      · exact format_numeric_field_length
          (hfit _ (List.mem_cons_of_mem _
            (List.mem_append_left _ (List.mem_map_of_mem _ hk))))
      · exact format_numeric_field_length
          (hfit _ (List.mem_cons_of_mem _ (List.mem_append_right _ (by simp))))
      · exact format_numeric_field_length
          (hfit _ (List.mem_cons_of_mem _ (List.mem_append_right _ (by simp))))
      · exact format_numeric_field_length
          (hfit _ (List.mem_cons_of_mem _ (List.mem_append_right _ (by simp))))
      · exact format_string_field_length _ _
    have hsum680 : ((docsFields fi).map Prod.fst).sum = 680 := by
      simp [docsFields, nutrientKeys]
    have hs := foldl_writeStep_spec (docsFields fi) ((List.replicate 681 0).set 0 32)
      1 hh0 (Nat.le_refl 1) (by rw [hlen0, hsum680]) hfields
    exact ⟨hs.1.trans hlen0, hs.2⟩

/-- C6 witness: the `NEWB` record on the fixture schema is exactly 5
bytes with status byte 0x20, and the docs-variant Calcium Sulfate record
is exactly 681 bytes. -/
theorem c6_record_length_invariant_witness :
    (([32, 78, 69, 87, 66] : List Nat).length = 5 ∧
      ([32, 78, 69, 87, 66] : List Nat).head? = some 32) ∧
      (create_fertilizer_record exFertCa).length = 681 := by
  have h := c6_record_length_invariant 5 [⟨"Name", 67, 4, 0⟩] exCand (by omega)
    (by decide) (by decide) [32, 78, 69, 87, 66] rfl
  exact ⟨h.1, (h.2 exFertCa (by decide)).1⟩

/-! C7 — numeric overflow truncation keeps the WRONG side -/

/-- C7 counterexample, both encoders.  Encoding 1234 into a Numeric
field of width 2 via `format_value` yields the ASCII bytes of `12` — the
leftmost two characters of the rendering `1234` — not the low-order `34`
the claim requires (`formatted.encode(...)[:field_length]` truncates from
the right).  And the docs variant's `format_numeric_field` does not
truncate at all: a value of 10^9 comes back as its full 19-character
rendering, not any 18-character slice. -/
theorem c7_counterexample :
    (format_value (PyVal.int 1234) 78 2 0 = [49, 50] ∧
      (renderIntB (pyTrunc ((1234 : Int) : Rat))).drop
          ((renderIntB (pyTrunc ((1234 : Int) : Rat))).length - 2) = [51, 52] ∧
      ([49, 50] : List Nat) ≠ [51, 52]) ∧
      format_numeric_field ((1000000000 : Int) : Rat)
          = renderFixed ((1000000000 : Int) : Rat) 8 ∧
      (renderFixed ((1000000000 : Int) : Rat) 8).length = 19 :=
  ⟨⟨rfl, rfl, by decide⟩, rfl, by decide⟩

/-- C7 amended, both encoders.  When the fixed-point rendering of a
convertible numeric value is at least as wide as the field,
`format_value` returns the LEFTMOST `field_length` characters of that
rendering (truncating the low-order end), without error — for both the
`decimal > 0` and the integer (`decimal = 0`) paths.  The docs variant's
`format_numeric_field` performs no truncation at all: whenever the
rendering is at least 18 characters wide it returns the entire rendering
unchanged. -/
theorem c7_numeric_overflow_truncation (v : PyVal) (q : Rat) (flen fdec : Nat)
    (hv1 : v ≠ PyVal.none) (hv2 : v ≠ PyVal.str "") (hq : toNum v = some q) :
    (0 < fdec → flen ≤ (renderFixed q fdec).length →
      format_value v 78 flen fdec = (renderFixed q fdec).take flen) ∧
      (fdec = 0 → flen ≤ (renderIntB (pyTrunc q)).length →
        format_value v 78 flen fdec = (renderIntB (pyTrunc q)).take flen) ∧
      (∀ q2 : Rat, 18 ≤ (renderFixed q2 8).length →
        format_numeric_field q2 = renderFixed q2 8) := by
  have hcond : ¬(v = PyVal.none ∨ v = PyVal.str "") := by
    rintro (h | h)
    · exact hv1 h
    · exact hv2 h
  refine ⟨?_, ?_, ?_⟩
  · intro hd hover
    have hfmt : formatNumericTry v flen fdec = .ok ((renderFixed q fdec).take flen) := by
      unfold formatNumericTry
      rw [hq]
      dsimp only
      rw [if_pos hd, padSpacesLeft_of_le hover,
        padSpacesLeft_of_le (by rw [List.length_take]; omega)]
    unfold format_value
    rw [if_pos rfl, if_neg hcond, hfmt]
  · intro hd hover
    have hfmt : formatNumericTry v flen fdec
        = .ok ((renderIntB (pyTrunc q)).take flen) := by
      unfold formatNumericTry
      rw [hq]
      dsimp only
      rw [if_neg (by omega), padSpacesLeft_of_le hover,
        padSpacesLeft_of_le (by rw [List.length_take]; omega)]
    unfold format_value
    rw [if_pos rfl, if_neg hcond, hfmt]
  · intro q2 hwide
    unfold format_numeric_field
    exact padSpacesLeft_of_le hwide

/-- C7 witness: overflow on both `format_value` paths and on the docs
variant's untruncated `format_numeric_field`, at concrete inputs. -/
theorem c7_numeric_overflow_truncation_witness :
    format_value (PyVal.rat ((25 : Int) : Rat)) 78 2 1
        = (renderFixed ((25 : Int) : Rat) 1).take 2 ∧
      format_value (PyVal.int 1234) 78 2 0
        = (renderIntB (pyTrunc ((1234 : Int) : Rat))).take 2 ∧
      format_numeric_field ((2000000000 : Int) : Rat)
        = renderFixed ((2000000000 : Int) : Rat) 8 :=
  ⟨(c7_numeric_overflow_truncation (PyVal.rat ((25 : Int) : Rat)) ((25 : Int) : Rat)
      2 1 (by decide) (by decide) rfl).1 (by omega) (by decide),
   (c7_numeric_overflow_truncation (PyVal.int 1234) ((1234 : Int) : Rat) 2 0 (by decide)
      (by decide) rfl).2.1 rfl (by decide),
   (c7_numeric_overflow_truncation (PyVal.int 1234) ((1234 : Int) : Rat) 2 0 (by decide)
      (by decide) rfl).2.2 ((2000000000 : Int) : Rat) (by decide)⟩

/-! C10 — totality of `format_value` -/

lemma natDigitsGo_lt (fuel : Nat) : ∀ n b, b ∈ natDigitsGo fuel n → b < 256 := by
  induction fuel with
  | zero =>
      intro n b hb
      simp [natDigitsGo] at hb
  | succ m ih =>
      intro n b hb
      unfold natDigitsGo at hb
      by_cases h : n = 0
      · rw [if_pos h] at hb
        simp at hb
      · rw [if_neg h] at hb
        rcases List.mem_append.1 hb with h2 | h2
        · exact ih _ b h2
        · simp only [List.mem_singleton] at h2
          omega

lemma natDigitsB_lt (n : Nat) : ∀ b ∈ natDigitsB n, b < 256 := by
  intro b hb
  unfold natDigitsB at hb
  by_cases h : n = 0
  · rw [if_pos h] at hb
    simp only [List.mem_singleton] at hb
    omega
  · rw [if_neg h] at hb
    exact natDigitsGo_lt n n b hb

lemma renderIntB_lt (i : Int) : ∀ b ∈ renderIntB i, b < 256 := by
  intro b hb
  unfold renderIntB at hb
  by_cases h : i < 0
  · rw [if_pos h] at hb
    rcases List.mem_cons.1 hb with h2 | h2
    · omega
    · exact natDigitsB_lt _ b h2
  · rw [if_neg h] at hb
    exact natDigitsB_lt _ b hb

lemma padZeros_lt {d : Nat} {l : List Nat} (hl : ∀ b ∈ l, b < 256) :
    ∀ b ∈ padZeros d l, b < 256 := by
  intro b hb
  rcases List.mem_append.1 hb with h2 | h2
  · have := List.eq_of_mem_replicate h2
    omega
  · exact hl b h2

lemma renderFixed_lt (q : Rat) (d : Nat) : ∀ b ∈ renderFixed q d, b < 256 := by
  intro b hb
  unfold renderFixed at hb
  rcases List.mem_append.1 hb with h2 | h2
  · rcases List.mem_append.1 h2 with h3 | h3
    · rcases List.mem_append.1 h3 with h4 | h4
      · by_cases hq : q.num < 0
        · rw [if_pos hq] at h4
          simp only [List.mem_singleton] at h4
          omega
        · rw [if_neg hq] at h4
          simp at h4
      · exact natDigitsB_lt _ b h4
    · simp only [List.mem_singleton] at h3
      omega
  · exact padZeros_lt (natDigitsB_lt _) b h2

lemma padSpacesLeft_lt {w : Nat} {l : List Nat} (hl : ∀ b ∈ l, b < 256) :
    ∀ b ∈ padSpacesLeft w l, b < 256 := by
  intro b hb
  rcases List.mem_append.1 hb with h2 | h2
  · have := List.eq_of_mem_replicate h2
    omega
  · exact hl b h2

lemma spaces_lt (n : Nat) : ∀ b ∈ spaces n, b < 256 := by
  intro b hb
  have := List.eq_of_mem_replicate hb
  omega

lemma formatNumericTry_lt {v : PyVal} {flen fdec : Nat} {bs : List Nat}
    (h : formatNumericTry v flen fdec = .ok bs) : ∀ b ∈ bs, b < 256 := by
  unfold formatNumericTry at h
  split at h
  · exact absurd h (by simp)
  · rename_i q hq
    injection h with h2
    subst h2
    apply padSpacesLeft_lt
    intro b hb
    have hb2 := List.mem_of_mem_take hb
    by_cases hd : 0 < fdec
    · rw [if_pos hd] at hb2
      exact padSpacesLeft_lt (renderFixed_lt q fdec) b hb2
    · rw [if_neg hd] at hb2
      exact padSpacesLeft_lt (renderIntB_lt _) b hb2

/-- C10.  `format_value` is total — every output element is a genuine
byte (< 256) for every value, type tag, and length/decimal pair — and a
Numeric field whose value is `None`, the empty string, or not convertible
to a number silently encodes as `field_length` spaces (the bare `except:`
swallows the conversion error). -/
theorem c10_format_value_total (v : PyVal) (ft flen fdec : Nat) :
    (∀ b ∈ format_value v ft flen fdec, b < 256) ∧
      (ft = 78 → (v = PyVal.none ∨ v = PyVal.str "" ∨ toNum v = Option.none) →
        format_value v ft flen fdec = spaces flen) := by
  constructor
  · intro b hb
    unfold format_value at hb
    by_cases h78 : ft = 78
    · rw [if_pos h78] at hb
      by_cases hv : v = PyVal.none ∨ v = PyVal.str ""
      · rw [if_pos hv] at hb
        exact spaces_lt flen b hb
      · rw [if_neg hv] at hb
        rcases hfmt : formatNumericTry v flen fdec with e | bs
        · rw [hfmt] at hb
          exact spaces_lt flen b hb
        · rw [hfmt] at hb
          exact formatNumericTry_lt hfmt b hb
    · rw [if_neg h78] at hb
      by_cases h67 : ft = 67
      · rw [if_pos h67] at hb
        dsimp only at hb
        rcases List.mem_append.1 hb with h2 | h2
        · have h3 := List.mem_of_mem_take h2
          have h4 := List.of_mem_filter h3
          simp only [decide_eq_true_eq] at h4
          omega
        · have := List.eq_of_mem_replicate h2
          omega
      · rw [if_neg h67] at hb
        by_cases h76 : ft = 76
        · rw [if_pos h76] at hb
          by_cases ht : pyTruthy v = true
          · rw [if_pos ht] at hb
            simp only [List.mem_singleton] at hb
            omega
          · rw [if_neg ht] at hb
            simp only [List.mem_singleton] at hb
            omega
        · rw [if_neg h76] at hb
          exact spaces_lt flen b hb
  · intro h78 hv
    subst h78
    unfold format_value
    rw [if_pos rfl]
    by_cases hcond : v = PyVal.none ∨ v = PyVal.str ""
    · rw [if_pos hcond]
    · rw [if_neg hcond]
      have htn : toNum v = Option.none := by
        rcases hv with h | h | h
        · exact absurd (Or.inl h) hcond
        · exact absurd (Or.inr h) hcond
        · exact h
      unfold formatNumericTry
      rw [htn]

/-- C10 witness: the unconvertible string `abc` encodes as three spaces. -/
theorem c10_format_value_total_witness :
    format_value (PyVal.str "abc") 78 3 2 = spaces 3 :=
  (c10_format_value_total (PyVal.str "abc") 78 3 2).2 rfl (Or.inr (Or.inr rfl))

/-! C1 amended — what happens to the reserved header bytes -/

lemma byteAt_append_left {l m : List Nat} {i : Nat} (h : i < l.length) :
    byteAt (l ++ m) i = byteAt l i := by
  simp [byteAt, List.getD_eq_getElem?_getD, List.getElem?_append, h]

lemma byteAt_set_ne {l : List Nat} {j i : Nat} (h : j ≠ i) (v : Nat) :
    byteAt (l.set j v) i = byteAt l i := by
  simp [byteAt, List.getD_eq_getElem?_getD, List.getElem?_set_ne h]

lemma byteAt_sliceAssign_after {data nr : List Nat} {i : Nat}
    (hlen : 32 ≤ data.length) (hnr : nr.length = 4) (hi : 8 ≤ i) :
    byteAt (sliceAssign data 4 8 nr) i = byteAt data i := by
  unfold sliceAssign
  have h4 : min 4 data.length = 4 := by omega
  rw [h4]
  have h8 : min (max 8 4) data.length = 8 := by omega
  rw [h8]
  have hpre : (data.take 4 ++ nr).length = 8 := by
    rw [List.length_append, List.length_take]
    omega
  simp only [byteAt, List.getD_eq_getElem?_getD]
  rw [List.getElem?_append_right (by rw [hpre]; omega), hpre, List.getElem?_drop]
  have h9 : 8 + (i - 8) = i := by omega
  rw [h9]

lemma sliceAssign_4_8_length {data nr : List Nat} (hlen : 32 ≤ data.length)
    (hnr : nr.length = 4) : (sliceAssign data 4 8 nr).length = data.length :=
  sliceAssign_length (by omega) (by omega) (by omega)

set_option maxRecDepth 4096 in
/-- C1 corrected.  `DBFWriter.write_dbf` zero-fills header bytes 12..31 of
the rewritten file (they match the original only when the original's
reserved bytes were all zero); the docs CSV variant, which edits the
original buffer in place, does preserve bytes 12..31 verbatim. -/
theorem c1_reserved_bytes (h : DbfHeader) (ty tm td : Nat) (bs : List Nat)
    (henc : encodeHeaderBytes h ty tm td = .ok bs)
    (data out : List Nat) (n ty2 tm2 td2 : Nat)
    (hlen : 32 ≤ data.length)
    (hcommit : docsCommit data n ty2 tm2 td2 = .ok out) :
    bs.drop 12 = List.replicate 20 0 ∧
      ∀ i, 12 ≤ i → i ≤ 31 → byteAt out i = byteAt data i := by
  constructor
  · unfold encodeHeaderBytes at henc
    split at henc
    case h_2 => exact absurd henc (by simp)
    case h_1 vb yb mb db nr hl2 rl2 hv hy hm hd hn hh hrl =>
      unfold packU32 at hn
      unfold packU16 at hh hrl
      split at hn
      case isFalse => exact absurd hn (by simp)
      case isTrue =>
        split at hh
        case isFalse => exact absurd hh (by simp)
        case isTrue =>
          split at hrl
          case isFalse => exact absurd hrl (by simp)
          case isTrue =>
            injection hn with hn2
            injection hh with hh2
            injection hrl with hrl2
            subst hn2; subst hh2; subst hrl2
            injection henc with h2
            subst h2
            rfl
  · intro i h12 h31
    unfold docsCommit at hcommit
    rcases hn : packU32 n with e | nr
    · rw [hn] at hcommit
      exact absurd hcommit (by simp)
    · rw [hn] at hcommit
      dsimp only at hcommit
      rcases hy : toByte ((ty2 : Int) - 1900) with e | yb
      · rw [hy] at hcommit
        exact absurd hcommit (by simp)
      · rw [hy] at hcommit
        dsimp only at hcommit
        have hnr : nr.length = 4 := by
          unfold packU32 at hn
          split at hn
          · injection hn with hn2
            rw [← hn2]
            rfl
          · exact absurd hn (by simp)
        have hd1len : (sliceAssign data 4 8 nr).length = data.length :=
          sliceAssign_4_8_length hlen hnr
        rcases hs1 : setByteAt (sliceAssign data 4 8 nr) 1 yb with e | d2
        · rw [hs1] at hcommit
          exact absurd hcommit (by simp)
        · rw [hs1] at hcommit
          dsimp only at hcommit
          have hd2 : d2 = (sliceAssign data 4 8 nr).set 1 yb := by
            unfold setByteAt at hs1
            split at hs1
            · injection hs1 with hs1b
              exact hs1b.symm
            · exact absurd hs1 (by simp)
          rcases hm : toByte (tm2 : Int) with e | mb
          · rw [hm] at hcommit
            exact absurd hcommit (by simp)
          · rw [hm] at hcommit
            dsimp only at hcommit
            rcases hs2 : setByteAt d2 2 mb with e | d3
            · rw [hs2] at hcommit
              exact absurd hcommit (by simp)
            · rw [hs2] at hcommit
              dsimp only at hcommit
              have hd3 : d3 = d2.set 2 mb := by
                unfold setByteAt at hs2
                split at hs2
                · injection hs2 with hs2b
                  exact hs2b.symm
                · exact absurd hs2 (by simp)
              rcases hdd : toByte (td2 : Int) with e | db
              · rw [hdd] at hcommit
                exact absurd hcommit (by simp)
              · rw [hdd] at hcommit
                dsimp only at hcommit
                rcases hs3 : setByteAt d3 3 db with e | d4
                · rw [hs3] at hcommit
                  exact absurd hcommit (by simp)
                · rw [hs3] at hcommit
                  dsimp only at hcommit
                  have hd4 : d4 = d3.set 3 db := by
                    unfold setByteAt at hs3
                    split at hs3
                    · injection hs3 with hs3b
                      exact hs3b.symm
                    · exact absurd hs3 (by simp)
                  injection hcommit with hout
                  subst hout
                  have hlen4 : d4.length = data.length := by
                    rw [hd4, List.length_set, hd3, List.length_set, hd2,
                      List.length_set, hd1len]
                  rw [byteAt_append_left (by omega), hd4,
                    byteAt_set_ne (by omega), hd3, byteAt_set_ne (by omega), hd2,
                    byteAt_set_ne (by omega), byteAt_sliceAssign_after hlen hnr (by omega)]

/-- C1 witness: the reserved bytes of the `write_dbf` header fixture are
zero, and the docs variant's commit preserves byte 12 of `exF0`. -/
theorem c1_reserved_bytes_witness :
    exBs.drop 12 = List.replicate 20 0 ∧ byteAt exDocsOut 12 = byteAt exF0 12 :=
  ⟨(c1_reserved_bytes exHdr 2024 1 1 exBs rfl exF0 exDocsOut 2 2024 1 1
      (by decide) rfl).1,
   (c1_reserved_bytes exHdr 2024 1 1 exBs rfl exF0 exDocsOut 2 2024 1 1
      (by decide) rfl).2 12 (by omega) (by omega)⟩

end HydroDBF
